import Mathlib

/-!
Verification of the phenix-apps Scale core: the plugin registry
(`phenix_apps/apps/scale/registry.py`), the Builtin scaling strategy
(`phenix_apps/apps/scale/plugins/builtin.py`), and the address-assignment
policy of the Extended (wind-turbine) strategy.

Python integers are modelled by `Int` (arbitrary precision), Python strings
by `String`, Python dicts by association lists with unique keys maintained
by an in-place update function, and Python exceptions by `Except`.
-/

namespace PhenixScale

/-! ### Lexicographic string order, as used by Python `sorted` -/

/-- Lexicographic comparison of character lists by code point, exactly the
order Python uses to compare `str` values (a proper head-to-head comparison;
a strict leading sublist sorts first). -/
def lexLt : List Char → List Char → Bool
  | _, [] => false
  | [], _ :: _ => true
  | a :: as, b :: bs =>
    if a < b then true else if b < a then false else lexLt as bs

/-- Python string comparison `s < t` (code-point lexicographic). -/
def strLt (s t : String) : Bool := lexLt s.data t.data

/-! ### Association lists standing in for Python dicts -/

/-- Lookup in a Python dict modelled as an association list. -/
def lookupAssoc {α : Type} : List (String × α) → String → Option α
  | [], _ => none
  | (k, v) :: rest, key => if k = key then some v else lookupAssoc rest key

/-- `d[key] = value` on a Python dict: replaces the value of an existing key
in place, otherwise appends the new binding (dicts are insertion ordered). -/
def updateAssoc {α : Type} : List (String × α) → String → α → List (String × α)
  | [], key, value => [(key, value)]
  | (k, v) :: rest, key, value =>
    if k = key then (key, value) :: rest else (k, v) :: updateAssoc rest key value

/-! ### The plugin registry (`registry.py`) -/

/-- The plugin classes (factories) stored in the registry.  The registry is
generic in what it stores; `other` keeps the model open beyond the two
builtin classes. -/
inductive PluginClass where
  | builtinV1
  | builtinV2
  | other (tag : Nat)
deriving DecidableEq, Repr

/-- One name's version map: `version string -> factory`. -/
abbrev VersionMap := List (String × PluginClass)

/-- Registry state: `name -> version -> factory` (`PluginRegistry._plugins`). -/
abbrev Registry := List (String × VersionMap)

/-- The ways `PluginRegistry.get_plugin` fails.  Python raises `ValueError`
with two distinct messages (name not found / version not found); they are
modelled as distinct constructors carrying the message data.  `indexError`
models the `IndexError` that `sorted([])[-1]` would raise on a name mapped
to an empty version dict, a state unreachable through `register_plugin`. -/
inductive RegistryError where
  | unknownStrategy (name : String)
  | unknownVersion (name version : String)
  | indexError
deriving DecidableEq, Repr

/-- `PluginRegistry.register_plugin(name, version)(cls)`: create the name's
version dict if absent, then assign `self._plugins[name][version] = cls`. -/
def register_plugin (reg : Registry) (name version : String) (cls : PluginClass) :
    Registry :=
  match lookupAssoc reg name with
  | none => updateAssoc reg name [(version, cls)]
  | some versions => updateAssoc reg name (updateAssoc versions version cls)

/-- Two-argument maximum under Python's string order. -/
def maxStr (m v : String) : String := if strLt m v then v else m

/-- `sorted(versions.keys())[-1]`: the greatest key under Python's
lexicographic string order, `none` on an empty key list. -/
def latestVersion : List String → Option String
  | [] => none
  | k :: rest => some (rest.foldl maxStr k)

/-- `PluginRegistry.get_plugin(name, version="latest")`: fail if the name is
absent; resolve `"latest"` to the lexicographically greatest registered
version string; fail if the resolved version is absent; otherwise return the
instance made by the stored zero-argument factory (instantiation is modelled
by returning the factory's class value). -/
def get_plugin (reg : Registry) (name : String) (version : String := "latest") :
    Except RegistryError PluginClass :=
  match lookupAssoc reg name with
  | none => .error (.unknownStrategy name)
  | some versions =>
    match if version = "latest" then latestVersion (versions.map Prod.fst)
          else some version with
    | none => .error .indexError
    | some v =>
      match lookupAssoc versions v with
      | none => .error (.unknownVersion name v)
      | some cls => .ok cls

/-- Joint lookup of a `(name, version)` key in the registry. -/
def lookup2 (reg : Registry) (name version : String) : Option PluginClass :=
  match lookupAssoc reg name with
  | none => none
  | some versions => lookupAssoc versions version

/-! ### The Builtin strategy (`plugins/builtin.py`) -/

/-- The profile keys the Builtin strategy reads (`kwargs.get` with defaults).
Integer coercion of the supplied values is already applied: fields hold the
`int(...)` results.  `hostname_stem` embeds the Python `hostname_prefix`
key.  `name` is read only by the v2 logging notice. -/
structure Profile where
  count : Option Int := none
  containers : Option Int := none
  containers_per_node : Option Int := none
  hostname_stem : Option String := none
  name : Option String := none

/-- The validated Builtin configuration (`BuiltinConfig` fields). -/
structure BuiltinConfig where
  count : Int
  containers : Int
  containers_per_node : Int
  hostname_stem : String
deriving DecidableEq, Repr

/-- `BuiltinConfig.__init__`: apply defaults (`count=1`, `containers=0`,
`containers_per_node=0`, `hostname_prefix="node"`), then validate; the first
violated check raises `ValueError` and no object is produced. -/
def mkBuiltinConfig (p : Profile) : Except String BuiltinConfig :=
  let count := p.count.getD 1
  let containers := p.containers.getD 0
  let cpn := p.containers_per_node.getD 0
  let stem := p.hostname_stem.getD "node"
  if count < 1 then .error "count must be >= 1"
  else if containers < 0 then .error "containers must be >= 0"
  else if cpn < 0 then .error "containers_per_node must be >= 0"
  else .ok ⟨count, containers, cpn, stem⟩

/-- `math.ceil(a / b)` on positive Python ints, in exact arithmetic:
for `b > 0` this equals `(a + b - 1)` floor-divided by `b`. -/
def ceilDiv (a b : Int) : Int := (a + b - 1) / b

/-- `BuiltinV1.get_node_count`: if `containers > 0` and
`containers_per_node > 0`, the ceiling of their quotient, else `count`. -/
def BuiltinV1.get_node_count (c : BuiltinConfig) : Int :=
  if 0 < c.containers ∧ 0 < c.containers_per_node then
    ceilDiv c.containers c.containers_per_node
  else c.count

/-- `BuiltinV1.get_hostname(index)`. -/
def BuiltinV1.get_hostname (c : BuiltinConfig) (index : Int) : String :=
  c.hostname_stem ++ "-" ++ toString index

/-- `BuiltinV1.get_container_count(index)`: the remainder on the node whose
index equals `get_node_count()`, the full per-node capacity on every other
index; 0 outside workload-partition mode. -/
def BuiltinV1.get_container_count (c : BuiltinConfig) (index : Int) : Int :=
  if 0 < c.containers ∧ 0 < c.containers_per_node then
    let total := c.containers
    let per_node := c.containers_per_node
    let nodes := BuiltinV1.get_node_count c
    if index = nodes then total - (nodes - 1) * per_node
    else per_node
  else 0

/-- A log record emitted through `logger.log(level, msg)`. -/
structure LogEntry where
  level : String
  msg : String
deriving DecidableEq, Repr

/-- `BuiltinV2` inherits `get_node_count` unchanged from `BuiltinV1`. -/
def BuiltinV2.get_node_count (c : BuiltinConfig) : Int :=
  BuiltinV1.get_node_count c

/-- `BuiltinV2` inherits `get_container_count` unchanged from `BuiltinV1`. -/
def BuiltinV2.get_container_count (c : BuiltinConfig) (index : Int) : Int :=
  BuiltinV1.get_container_count c index

/-- `BuiltinV2.get_hostname(index)`: the v1 hostname with a `v2-` marker. -/
def BuiltinV2.get_hostname (c : BuiltinConfig) (index : Int) : String :=
  "v2-" ++ c.hostname_stem ++ "-" ++ toString index

/-- `BuiltinV1.pre_configure`: build the validated config from the profile. -/
def BuiltinV1.pre_configure (p : Profile) : Except String BuiltinConfig :=
  mkBuiltinConfig p

/-- `BuiltinV2.pre_configure`: run the v1 configuration, then emit the
informational log notice naming the profile. -/
def BuiltinV2.pre_configure (p : Profile) :
    Except String (BuiltinConfig × LogEntry) :=
  match mkBuiltinConfig p with
  | .error e => .error e
  | .ok c =>
    .ok (c, ⟨"INFO",
      "Using builtin plugin v2.0.0 for profile \x27" ++ p.name.getD "unknown" ++ "\x27"⟩)

/-! ### Extended strategy address assignment -/

/-- Modelled from the spec: the Extended (wind-turbine) strategy's source
module `plugins/wind_turbine.py` is not part of this tree (only its tests
are), so its CIDR input is modelled from the spec's words: an address
portion (a 32-bit IPv4 value) together with a prefix length, as returned by
the network-processing collaborator. -/
structure Cidr where
  addr : Nat
  prefixLen : Nat
deriving DecidableEq, Repr

/-- Modelled from the spec: the starting address of the Extended strategy's
sequential assignment (`_get_container_details`).  If the CIDR's address
portion is the network's base address (all host bits zero), addressing
starts at the first usable host address, one past the base; if it is a
specific host address (host bits non-zero), addressing starts at exactly
that address. -/
def startAddr (c : Cidr) : Nat :=
  if c.addr % 2 ^ (32 - c.prefixLen) = 0 then c.addr + 1 else c.addr

/-- Dotted-quad rendering of a 32-bit IPv4 address value. -/
def ipToString (n : Nat) : String :=
  toString (n / 16777216 % 256) ++ "." ++ toString (n / 65536 % 256) ++ "."
    ++ toString (n / 256 % 256) ++ "." ++ toString (n % 256)

/-- Modelled from the spec: one workload endpoint record of
`_get_container_details`, exposing the bare address (`topology_ip`) and the
address with prefix length (`ips[0]`). -/
structure ContainerDetail where
  role : String
  topologyIp : String
  ips : List String
deriving DecidableEq, Repr

/-- Modelled from the spec: the endpoint record of the `k`-th consumer of
addresses (the first endpoint of the first node has `k = 0`); each
subsequent node/role consumes the next sequential address within the same
prefix. -/
def endpointDetail (c : Cidr) (role : String) (k : Nat) : ContainerDetail :=
  let a := startAddr c + k
  ⟨role, ipToString a, [ipToString a ++ "/" ++ toString c.prefixLen]⟩

/-- Modelled from the spec: the first endpoint (`main-controller` role)
produced for the first node. -/
def firstEndpoint (c : Cidr) : ContainerDetail :=
  endpointDetail c "main-controller" 0

/-- Numeric value of a dotted quad. -/
def ipNum (a b c d : Nat) : Nat := ((a * 256 + b) * 256 + c) * 256 + d

/-! ### Concrete inputs used to exercise the theorems -/

/-- The validated config of the profile `containers=105, containers_per_node=10`. -/
def c105 : BuiltinConfig := ⟨1, 105, 10, "node"⟩

/-- The validated config of the profile `count=5` (no workload partition). -/
def czero : BuiltinConfig := ⟨5, 0, 0, "node"⟩

/-- The profile `{count: 5}`. -/
def p5 : Profile := ⟨some 5, none, none, none, none⟩

/-- The profile `{count: 0}`. -/
def p0 : Profile := ⟨some 0, none, none, none, none⟩

/-- Registry holding `builtin` versions `1.0.0` and `2.0.0`, registered in
that order, as the module import of `plugins/builtin.py` does. -/
def regA : Registry :=
  register_plugin (register_plugin [] "builtin" "1.0.0" .builtinV1)
    "builtin" "2.0.0" .builtinV2

/-- `regA` with a further `10.0.0` registration. -/
def regB : Registry := register_plugin regA "builtin" "10.0.0" (.other 0)

/-- `regA` with `2.0.0` re-registered to a different factory. -/
def regC : Registry := register_plugin regA "builtin" "2.0.0" (.other 1)

/-- The version map stored under `builtin` in `regA`. -/
def vmA : VersionMap := [("1.0.0", .builtinV1), ("2.0.0", .builtinV2)]

/-! ### Order lemmas for the Python string comparison -/

theorem lexLt_cons_iff {a b : Char} {as bs : List Char} :
    lexLt (a :: as) (b :: bs) = true ↔ a < b ∨ (a = b ∧ lexLt as bs = true) := by
  simp only [lexLt]
  split_ifs with h1 h2
  · simp [h1]
  · simp [h1, ne_of_gt h2]
  · have heq : a = b := le_antisymm (le_of_not_lt h2) (le_of_not_lt h1)
    simp [h1, heq]

theorem lexLt_cons_false_iff {a b : Char} {as bs : List Char} :
    lexLt (a :: as) (b :: bs) = false ↔ b < a ∨ (a = b ∧ lexLt as bs = false) := by
  simp only [lexLt]
  split_ifs with h1 h2
  · simp [ne_of_lt h1, not_lt_of_gt h1]
  · simp [h2]
  · have heq : a = b := le_antisymm (le_of_not_lt h2) (le_of_not_lt h1)
    simp [h2, heq]

theorem lexLt_trans : ∀ {a b c : List Char},
    lexLt a b = true → lexLt b c = true → lexLt a c = true := by
  intro a
  induction a with
  | nil =>
    intro b c h1 h2
    cases c with
    | nil => cases b <;> simp [lexLt] at h1 h2
    | cons z zs => simp [lexLt]
  | cons x xs ih =>
    intro b c h1 h2
    cases b with
    | nil => simp [lexLt] at h1
    | cons y ys =>
      cases c with
      | nil => simp [lexLt] at h2
      | cons z zs =>
        rcases lexLt_cons_iff.mp h1 with hxy | ⟨rfl, h1t⟩
        · rcases lexLt_cons_iff.mp h2 with hyz | ⟨rfl, _⟩
          · exact lexLt_cons_iff.mpr (Or.inl (lt_trans hxy hyz))
          · exact lexLt_cons_iff.mpr (Or.inl hxy)
        · rcases lexLt_cons_iff.mp h2 with hyz | ⟨rfl, h2t⟩
          · exact lexLt_cons_iff.mpr (Or.inl hyz)
          · exact lexLt_cons_iff.mpr (Or.inr ⟨rfl, ih h1t h2t⟩)

theorem lexLt_total : ∀ {a b : List Char},
    lexLt a b = false → lexLt b a = true ∨ a = b := by
  intro a
  induction a with
  | nil =>
    intro b h
    cases b with
    | nil => right; rfl
    | cons y ys => simp [lexLt] at h
  | cons x xs ih =>
    intro b h
    cases b with
    | nil => left; rfl
    | cons y ys =>
      rcases lexLt_cons_false_iff.mp h with hyx | ⟨rfl, ht⟩
      · exact Or.inl (lexLt_cons_iff.mpr (Or.inl hyx))
      · rcases ih ht with h1 | h2
        · exact Or.inl (lexLt_cons_iff.mpr (Or.inr ⟨rfl, h1⟩))
        · exact Or.inr (by rw [h2])

theorem strLt_trans {s t u : String} (h1 : strLt s t = true)
    (h2 : strLt t u = true) : strLt s u = true :=
  lexLt_trans h1 h2

theorem strLt_total {s t : String} (h : strLt s t = false) :
    strLt t s = true ∨ s = t := by
  rcases lexLt_total (a := s.data) (b := t.data) h with h1 | h2
  · exact Or.inl h1
  · right
    cases s; cases t
    simp only at h2
    rw [h2]

/-! ### Maximum of a list of version strings -/

theorem maxStr_cases (a h : String) : maxStr a h = a ∨ maxStr a h = h := by
  unfold maxStr; split_ifs <;> simp

theorem le_maxStr_left (a h : String) :
    strLt a (maxStr a h) = true ∨ a = maxStr a h := by
  unfold maxStr
  split_ifs with hlt
  · left; exact hlt
  · right; rfl

theorem le_maxStr_right (a h : String) :
    strLt h (maxStr a h) = true ∨ h = maxStr a h := by
  unfold maxStr
  split_ifs with hlt
  · right; rfl
  · have hfalse : strLt a h = false := by
      revert hlt; cases strLt a h <;> simp
    rcases strLt_total hfalse with h1 | h2
    · left; exact h1
    · right; exact h2.symm

theorem strLe_trans {a b c : String}
    (h1 : strLt a b = true ∨ a = b) (h2 : strLt b c = true ∨ b = c) :
    strLt a c = true ∨ a = c := by
  rcases h1 with h1 | rfl
  · rcases h2 with h2 | rfl
    · exact Or.inl (strLt_trans h1 h2)
    · exact Or.inl h1
  · exact h2

theorem foldl_maxStr_mem : ∀ (l : List String) (a : String),
    l.foldl maxStr a = a ∨ l.foldl maxStr a ∈ l := by
  intro l
  induction l with
  | nil => intro a; left; rfl
  | cons h t ih =>
    intro a
    simp only [List.foldl_cons]
    rcases ih (maxStr a h) with h1 | h2
    · rcases maxStr_cases a h with h3 | h3
      · left; rw [h1, h3]
      · right; rw [h1, h3]; exact List.mem_cons_self _ _
    · right; exact List.mem_cons_of_mem _ h2

theorem foldl_maxStr_ge : ∀ (l : List String) (a : String),
    (strLt a (l.foldl maxStr a) = true ∨ a = l.foldl maxStr a) ∧
      ∀ x ∈ l, strLt x (l.foldl maxStr a) = true ∨ x = l.foldl maxStr a := by
  intro l
  induction l with
  | nil => intro a; exact ⟨Or.inr rfl, by simp⟩
  | cons h t ih =>
    intro a
    simp only [List.foldl_cons]
    obtain ⟨ha, hmem⟩ := ih (maxStr a h)
    refine ⟨strLe_trans (le_maxStr_left a h) ha, ?_⟩
    intro x hx
    rcases List.mem_cons.mp hx with rfl | hxt
    · exact strLe_trans (le_maxStr_right a x) ha
    · exact hmem x hxt

theorem latestVersion_spec {l : List String} (hne : l ≠ []) :
    ∃ m, latestVersion l = some m ∧ m ∈ l ∧
      ∀ v ∈ l, strLt v m = true ∨ v = m := by
  cases l with
  | nil => exact absurd rfl hne
  | cons k rest =>
    refine ⟨rest.foldl maxStr k, rfl, ?_, ?_⟩
    · rcases foldl_maxStr_mem rest k with h1 | h2
      · rw [h1]; exact List.mem_cons_self _ _
      · exact List.mem_cons_of_mem _ h2
    · intro v hv
      obtain ⟨hk, hmem⟩ := foldl_maxStr_ge rest k
      rcases List.mem_cons.mp hv with rfl | hvt
      · exact hk
      · exact hmem v hvt

/-! ### Lemmas on association-list lookup and update -/

theorem lookupAssoc_updateAssoc_self {α : Type} (m : List (String × α))
    (k : String) (v : α) : lookupAssoc (updateAssoc m k v) k = some v := by
  induction m with
  | nil => simp [updateAssoc, lookupAssoc]
  | cons hd tl ih =>
    obtain ⟨k0, v0⟩ := hd
    by_cases hk : k0 = k
    · simp [updateAssoc, lookupAssoc, hk]
    · simp [updateAssoc, lookupAssoc, hk, ih]

theorem lookupAssoc_updateAssoc_ne {α : Type} (m : List (String × α))
    (k key : String) (v : α) (h : key ≠ k) :
    lookupAssoc (updateAssoc m k v) key = lookupAssoc m key := by
  induction m with
  | nil => simp [updateAssoc, lookupAssoc, Ne.symm h]
  | cons hd tl ih =>
    obtain ⟨k0, v0⟩ := hd
    by_cases hk : k0 = k
    · subst hk
      simp [updateAssoc, lookupAssoc, Ne.symm h]
    · by_cases hkey : k0 = key
      · subst hkey
        simp [updateAssoc, lookupAssoc, hk]
      · simp [updateAssoc, lookupAssoc, hk, hkey, ih]

theorem lookupAssoc_mem {α : Type} {m : List (String × α)} {k : String}
    (h : k ∈ m.map Prod.fst) : ∃ v, lookupAssoc m k = some v := by
  induction m with
  | nil => simp at h
  | cons hd tl ih =>
    obtain ⟨k0, v0⟩ := hd
    by_cases hk : k0 = k
    · exact ⟨v0, by simp [lookupAssoc, hk]⟩
    · simp only [List.map_cons, List.mem_cons] at h
      rcases h with h | h

      · exact absurd h.symm hk
      · obtain ⟨v, hv⟩ := ih h
        exact ⟨v, by simp [lookupAssoc, hk, hv]⟩

/-! ### Ceiling-division bounds -/

theorem ceilDiv_bounds {a b : ℤ} (hb : 0 < b) :
    a ≤ b * ceilDiv a b ∧ b * (ceilDiv a b - 1) < a := by
  unfold ceilDiv
  have h0 : b * ((a + b - 1) / b) + (a + b - 1) % b = a + b - 1 :=
    Int.ediv_add_emod (a + b - 1) b
  have h1 : 0 ≤ (a + b - 1) % b := Int.emod_nonneg _ (ne_of_gt hb)
  have h2 : (a + b - 1) % b < b := Int.emod_lt_of_pos _ hb
  have hexp : b * ((a + b - 1) / b - 1) = b * ((a + b - 1) / b) - b := by ring
  constructor
  · linarith
  · rw [hexp]; linarith

/-! ### Lemmas on the Builtin strategy -/

theorem mkBuiltinConfig_ok_iff {p : Profile} {c : BuiltinConfig} :
    mkBuiltinConfig p = .ok c ↔
      1 ≤ p.count.getD 1 ∧ 0 ≤ p.containers.getD 0 ∧
        0 ≤ p.containers_per_node.getD 0 ∧
        c = ⟨p.count.getD 1, p.containers.getD 0, p.containers_per_node.getD 0,
          p.hostname_stem.getD "node"⟩ := by
  simp only [mkBuiltinConfig]
  split_ifs with h1 h2 h3
  · constructor
    · intro h; exact h.elim
    · intro ⟨hc, _⟩; omega
  · constructor
    · intro h; exact h.elim
    · intro ⟨_, hc, _⟩; omega
  · constructor
    · intro h; exact h.elim
    · intro ⟨_, _, hc, _⟩; omega
  · constructor
    · intro h
      refine ⟨by omega, by omega, by omega, (Except.ok.inj h).symm⟩
    · intro ⟨_, _, _, hc⟩
      rw [hc]

theorem node_count_partition_bounds {c : BuiltinConfig}
    (hc : 0 < c.containers) (hp : 0 < c.containers_per_node) :
    c.containers ≤ c.containers_per_node * BuiltinV1.get_node_count c ∧
      c.containers_per_node * (BuiltinV1.get_node_count c - 1) < c.containers := by
  have h : BuiltinV1.get_node_count c = ceilDiv c.containers c.containers_per_node := by
    simp [BuiltinV1.get_node_count, hc, hp]
  rw [h]
  exact ceilDiv_bounds hp

theorem node_count_pos_of_partition {c : BuiltinConfig}
    (hc : 0 < c.containers) (hp : 0 < c.containers_per_node) :
    1 ≤ BuiltinV1.get_node_count c := by
  obtain ⟨h1, _⟩ := node_count_partition_bounds hc hp
  by_contra hlt
  push_neg at hlt
  have hns : BuiltinV1.get_node_count c ≤ 0 := by omega
  nlinarith

theorem get_container_count_of_ne {c : BuiltinConfig}
    (hc : 0 < c.containers) (hp : 0 < c.containers_per_node) {i : ℤ}
    (hi : i ≠ BuiltinV1.get_node_count c) :
    BuiltinV1.get_container_count c i = c.containers_per_node := by
  simp [BuiltinV1.get_container_count, hc, hp, hi]

theorem get_container_count_last {c : BuiltinConfig}
    (hc : 0 < c.containers) (hp : 0 < c.containers_per_node) :
    BuiltinV1.get_container_count c (BuiltinV1.get_node_count c) =
      c.containers - (BuiltinV1.get_node_count c - 1) * c.containers_per_node := by
  simp [BuiltinV1.get_container_count, hc, hp]

theorem partition_sum {c : BuiltinConfig}
    (hc : 0 < c.containers) (hp : 0 < c.containers_per_node) :
    (∑ i in Finset.Icc (1:ℤ) (BuiltinV1.get_node_count c),
        BuiltinV1.get_container_count c i) = c.containers := by
  have hpos : 1 ≤ BuiltinV1.get_node_count c := node_count_pos_of_partition hc hp
  have hset : Finset.Icc (1:ℤ) (BuiltinV1.get_node_count c) =
      insert (BuiltinV1.get_node_count c)
        (Finset.Icc 1 (BuiltinV1.get_node_count c - 1)) := by
    ext x
    simp only [Finset.mem_Icc, Finset.mem_insert]
    omega
  have hnot : BuiltinV1.get_node_count c ∉
      Finset.Icc (1:ℤ) (BuiltinV1.get_node_count c - 1) := by
    simp only [Finset.mem_Icc]
    omega
  rw [hset, Finset.sum_insert hnot]
  have hconst : ∀ x ∈ Finset.Icc (1:ℤ) (BuiltinV1.get_node_count c - 1),
      BuiltinV1.get_container_count c x = c.containers_per_node := by
    intro x hx
    simp only [Finset.mem_Icc] at hx
    exact get_container_count_of_ne hc hp (by omega)
  rw [Finset.sum_congr rfl hconst, Finset.sum_const, Int.card_Icc,
    get_container_count_last hc hp, nsmul_eq_mul]
  have hcast : (((BuiltinV1.get_node_count c - 1 + 1 - 1).toNat : ℤ)) =
      BuiltinV1.get_node_count c - 1 := by omega
  rw [hcast]
  ring

theorem mkBuiltinConfig_error_iff {p : Profile} :
    (∃ e, mkBuiltinConfig p = .error e) ↔
      (p.count.getD 1 < 1 ∨ p.containers.getD 0 < 0 ∨
        p.containers_per_node.getD 0 < 0) := by
  simp only [mkBuiltinConfig]
  split_ifs with h1 h2 h3
  · simp [h1]
  · simp [h2]
  · simp [h3]
  · simp [h1, h2, h3]

theorem node_count_pos {c : BuiltinConfig} (hcount : 1 ≤ c.count) :
    1 ≤ BuiltinV1.get_node_count c := by
  by_cases hpart : 0 < c.containers ∧ 0 < c.containers_per_node
  · exact node_count_pos_of_partition hpart.1 hpart.2
  · unfold BuiltinV1.get_node_count
    rw [if_neg hpart]
    exact hcount

/-! ### Claim theorems -/

/-- C1: in workload-partition mode (`containers > 0` and
`containers_per_node > 0`), `get_container_count(i)` returns
`containers_per_node` for every index `1 <= i < get_node_count()`, returns
`containers - (node_count - 1) * containers_per_node` at
`i == get_node_count()`, and the counts over `i = 1..get_node_count()` sum
to exactly `containers`; with `containers == 0` or
`containers_per_node == 0` every index yields 0. -/
theorem builtin_partition_distribution (c : BuiltinConfig) :
    (0 < c.containers → 0 < c.containers_per_node →
      (∀ i : ℤ, 1 ≤ i → i < BuiltinV1.get_node_count c →
        BuiltinV1.get_container_count c i = c.containers_per_node) ∧
      BuiltinV1.get_container_count c (BuiltinV1.get_node_count c) =
        c.containers - (BuiltinV1.get_node_count c - 1) * c.containers_per_node ∧
      (∑ i in Finset.Icc (1:ℤ) (BuiltinV1.get_node_count c),
          BuiltinV1.get_container_count c i) = c.containers) ∧
    (c.containers = 0 ∨ c.containers_per_node = 0 →
      ∀ i : ℤ, BuiltinV1.get_container_count c i = 0) := by
  constructor
  · intro hc hp
    exact ⟨fun i _ h2 => get_container_count_of_ne hc hp (by omega),
      get_container_count_last hc hp, partition_sum hc hp⟩
  · intro h i
    have hcond : ¬ (0 < c.containers ∧ 0 < c.containers_per_node) := by
      rcases h with h | h <;> omega
    simp [BuiltinV1.get_container_count, hcond]

/-- Witness for C1 at `containers=105, containers_per_node=10`
(`node_count = 11`) and at the partition-free profile `count=5`. -/
theorem builtin_partition_distribution_witness :
    BuiltinV1.get_container_count c105 3 = 10 ∧
    BuiltinV1.get_container_count c105 11 = 105 - (11 - 1) * 10 ∧
    (∑ i in Finset.Icc (1:ℤ) 11, BuiltinV1.get_container_count c105 i) = 105 ∧
    BuiltinV1.get_container_count czero 7 = 0 := by
  obtain ⟨h1, _⟩ := builtin_partition_distribution c105
  obtain ⟨ha, hb, hc⟩ := h1 (by decide) (by decide)
  obtain ⟨_, h2⟩ := builtin_partition_distribution czero
  have hn : BuiltinV1.get_node_count c105 = 11 := by decide
  refine ⟨?_, ?_, ?_, h2 (Or.inl rfl) 7⟩
  · exact (ha 3 (by decide) (by rw [hn]; decide)).trans (by decide)
  · rw [hn] at hb
    exact hb.trans (by decide)
  · rw [hn] at hc
    exact hc.trans (by decide)

/-- C2: `get_node_count()` is `ceil(containers / containers_per_node)` when
both `containers > 0` and `containers_per_node > 0` (characterised as the
least integer `m` with `containers <= m * containers_per_node`), and is
`count` otherwise. -/
theorem builtin_node_count_ceiling (c : BuiltinConfig) :
    (0 < c.containers → 0 < c.containers_per_node →
      c.containers ≤ BuiltinV1.get_node_count c * c.containers_per_node ∧
      ∀ m : ℤ, c.containers ≤ m * c.containers_per_node →
        BuiltinV1.get_node_count c ≤ m) ∧
    (¬(0 < c.containers ∧ 0 < c.containers_per_node) →
      BuiltinV1.get_node_count c = c.count) := by
  constructor
  · intro hc hp
    obtain ⟨h1, h2⟩ := node_count_partition_bounds hc hp
    constructor
    · rw [mul_comm]
      exact h1
    · intro m hm
      have h3 : c.containers_per_node * (BuiltinV1.get_node_count c - 1) <
          c.containers_per_node * m := by
        calc c.containers_per_node * (BuiltinV1.get_node_count c - 1)
            < c.containers := h2
          _ ≤ m * c.containers_per_node := hm
          _ = c.containers_per_node * m := mul_comm _ _
      have h4 := lt_of_mul_lt_mul_left h3 hp.le
      omega
  · intro h
    unfold BuiltinV1.get_node_count
    rw [if_neg h]

/-- Witness for C2 at `containers=105, containers_per_node=10` and at the
partition-free profile `count=5`. -/
theorem builtin_node_count_ceiling_witness :
    (105:ℤ) ≤ BuiltinV1.get_node_count c105 * 10 ∧
    BuiltinV1.get_node_count c105 ≤ 11 ∧
    BuiltinV1.get_node_count czero = 5 := by
  obtain ⟨h1, _⟩ := builtin_node_count_ceiling c105
  obtain ⟨ha, hb⟩ := h1 (by decide) (by decide)
  obtain ⟨_, hz⟩ := builtin_node_count_ceiling czero
  exact ⟨ha, hb 11 (by decide), (hz (by decide)).trans (by decide)⟩

/-- C5: Builtin Config construction fails exactly when, after coercion and
defaulting, `count < 1` or `containers < 0` or `containers_per_node < 0`;
on failure no config value exists (the result is an error, nothing partial),
and on success the coerced values are stored unchanged. -/
theorem builtin_config_validation_iff (p : Profile) :
    ((∃ e, mkBuiltinConfig p = .error e) ↔
      (p.count.getD 1 < 1 ∨ p.containers.getD 0 < 0 ∨
        p.containers_per_node.getD 0 < 0)) ∧
    (∀ c, mkBuiltinConfig p = .ok c →
      c.count = p.count.getD 1 ∧ c.containers = p.containers.getD 0 ∧
        c.containers_per_node = p.containers_per_node.getD 0) := by
  refine ⟨mkBuiltinConfig_error_iff, fun c h => ?_⟩
  obtain ⟨_, _, _, rfl⟩ := mkBuiltinConfig_ok_iff.mp h
  exact ⟨rfl, rfl, rfl⟩

/-- Witness for C5: `count=0` fails, `count=5` succeeds and stores 5. -/
theorem builtin_config_validation_iff_witness :
    (∃ e, mkBuiltinConfig p0 = .error e) ∧
    (∃ c, mkBuiltinConfig p5 = .ok c ∧ c.count = 5) := by
  constructor
  · exact (builtin_config_validation_iff p0).1.mpr (Or.inl (by decide))
  · refine ⟨⟨5, 0, 0, "node"⟩, rfl, ?_⟩
    exact ((builtin_config_validation_iff p5).2 ⟨5, 0, 0, "node"⟩ rfl).1

/-- C6: every config produced by validation yields
`get_node_count() >= 1`, in both branches. -/
theorem builtin_node_count_positive (p : Profile) (c : BuiltinConfig)
    (h : mkBuiltinConfig p = .ok c) : 1 ≤ BuiltinV1.get_node_count c := by
  obtain ⟨h1, _, _, rfl⟩ := mkBuiltinConfig_ok_iff.mp h
  exact node_count_pos h1

/-- Witness for C6 at the profile `count=5` and at the partition profile
`containers=105, containers_per_node=10`. -/
theorem builtin_node_count_positive_witness :
    1 ≤ BuiltinV1.get_node_count ⟨5, 0, 0, "node"⟩ ∧
    1 ≤ BuiltinV1.get_node_count ⟨1, 105, 10, "node"⟩ := by
  constructor
  · exact builtin_node_count_positive p5 ⟨5, 0, 0, "node"⟩ rfl
  · exact builtin_node_count_positive ⟨none, some 105, some 10, none, none⟩
      ⟨1, 105, 10, "node"⟩ rfl

/-- C10: in partition mode `get_container_count` applies no index-range
check: every integer index other than `get_node_count()` — index 0,
negative indices, indices beyond the node count — yields
`containers_per_node`. -/
theorem builtin_container_count_total (c : BuiltinConfig)
    (hc : 0 < c.containers) (hp : 0 < c.containers_per_node) :
    ∀ i : ℤ, i ≠ BuiltinV1.get_node_count c →
      BuiltinV1.get_container_count c i = c.containers_per_node :=
  fun _ hi => get_container_count_of_ne hc hp hi

/-- Witness for C10 at `containers=105, containers_per_node=10` on the
out-of-range indices `-3`, `0` and `17`. -/
theorem builtin_container_count_total_witness :
    BuiltinV1.get_container_count c105 (-3) = 10 ∧
    BuiltinV1.get_container_count c105 0 = 10 ∧
    BuiltinV1.get_container_count c105 17 = 10 := by
  have h := builtin_container_count_total c105 (by decide) (by decide)
  have hn : BuiltinV1.get_node_count c105 = 11 := by decide
  exact ⟨(h (-3) (by rw [hn]; decide)).trans (by decide),
    (h 0 (by rw [hn]; decide)).trans (by decide),
    (h 17 (by rw [hn]; decide)).trans (by decide)⟩

/-- C3: resolving `(name, "latest")` over any registry state with at least
one registered version for `name` selects the version string greatest under
plain lexicographic string ordering and returns its factory's instance;
concretely, registering `("builtin","1.0.0")` then `("builtin","2.0.0")`
and resolving latest yields the 2.0.0 instance, a further-registered
`"10.0.0"` is not chosen over `"2.0.0"`, and indeed `"10.0.0"` sorts before
`"2.0.0"`. -/
theorem registry_latest_lexicographic :
    (∀ (reg : Registry) (name : String) (versions : VersionMap),
      lookupAssoc reg name = some versions → versions ≠ [] →
      ∃ m cls, m ∈ versions.map Prod.fst ∧
        (∀ v ∈ versions.map Prod.fst, strLt v m = true ∨ v = m) ∧
        lookupAssoc versions m = some cls ∧
        get_plugin reg name "latest" = .ok cls) ∧
    get_plugin regA "builtin" "latest" = .ok .builtinV2 ∧
    get_plugin regB "builtin" "latest" = .ok .builtinV2 ∧
    strLt "10.0.0" "2.0.0" = true := by
  refine ⟨?_, rfl, rfl, by decide⟩
  intro reg name versions hfind hne
  have hkeys : versions.map Prod.fst ≠ [] := by
    intro h
    exact hne (List.map_eq_nil_iff.mp h)
  obtain ⟨m, hm_eq, hm_mem, hm_max⟩ := latestVersion_spec hkeys
  obtain ⟨cls, hcls⟩ := lookupAssoc_mem hm_mem
  refine ⟨m, cls, hm_mem, hm_max, hcls, ?_⟩
  simp [get_plugin, hfind, hm_eq, hcls]

/-- Witness for C3 at the two-version `builtin` registry. -/
theorem registry_latest_lexicographic_witness :
    ∃ m cls, m ∈ vmA.map Prod.fst ∧
      (∀ v ∈ vmA.map Prod.fst, strLt v m = true ∨ v = m) ∧
      lookupAssoc vmA m = some cls ∧
      get_plugin regA "builtin" "latest" = .ok cls :=
  registry_latest_lexicographic.1 regA "builtin" vmA rfl (by decide)

/-- C4: resolution fails with `UnknownStrategy` when the name is not
registered and with `UnknownVersion` — a distinct error — when the name is
registered but the requested version is absent; the resolver is a pure
function of the registry state (it returns only an `Except`, so no failure
can alter the mapping or produce an instance). -/
theorem registry_resolution_failures :
    (∀ (reg : Registry) (name version : String),
      lookupAssoc reg name = none →
      get_plugin reg name version = .error (.unknownStrategy name)) ∧
    (∀ (reg : Registry) (name version : String) (versions : VersionMap),
      lookupAssoc reg name = some versions → version ≠ "latest" →
      lookupAssoc versions version = none →
      get_plugin reg name version = .error (.unknownVersion name version)) ∧
    (∀ n n' v', RegistryError.unknownStrategy n ≠
      RegistryError.unknownVersion n' v') := by
  refine ⟨?_, ?_, by intro n n' v' h; exact RegistryError.noConfusion h⟩
  · intro reg name version habs
    simp [get_plugin, habs]
  · intro reg name version versions hfind hlat hver
    simp [get_plugin, hfind, hlat, hver]

/-- Witness for C4: an unregistered name and an unregistered version. -/
theorem registry_resolution_failures_witness :
    get_plugin [] "x" "latest" = .error (.unknownStrategy "x") ∧
    get_plugin regA "builtin" "9.9.9" =
      .error (.unknownVersion "builtin" "9.9.9") := by
  constructor
  · exact registry_resolution_failures.1 [] "x" "latest" rfl
  · exact registry_resolution_failures.2.1 regA "builtin" "9.9.9" vmA rfl
      (by decide) rfl

/-- C7: `register(name, version, factory)` stores the factory under
`(name, version)` — silently replacing any previous entry under the same
key (last registration wins) — leaves every other `(name, version)` key
unchanged, and removes nothing: every key resolvable before stays
resolvable, so the mapping grows monotonically; resolution (`get_plugin`)
is modelled as a pure function of the state and cannot mutate it. -/
theorem registry_register_behavior (reg : Registry) (name version : String)
    (cls : PluginClass) :
    lookup2 (register_plugin reg name version cls) name version = some cls ∧
    (∀ n v, ¬(n = name ∧ v = version) →
      lookup2 (register_plugin reg name version cls) n v = lookup2 reg n v) ∧
    (∀ n v c0, lookup2 reg n v = some c0 →
      ∃ c1, lookup2 (register_plugin reg name version cls) n v = some c1) := by
  have hself : lookup2 (register_plugin reg name version cls) name version
      = some cls := by
    unfold register_plugin
    cases hcase : lookupAssoc reg name with
    | none =>
      simp [lookup2, lookupAssoc_updateAssoc_self, lookupAssoc]
    | some vm =>
      simp [lookup2, lookupAssoc_updateAssoc_self]
  have hother : ∀ n v, ¬(n = name ∧ v = version) →
      lookup2 (register_plugin reg name version cls) n v = lookup2 reg n v := by
    intro n v hnv
    by_cases hn : n = name
    · subst hn
      have hv : v ≠ version := fun hv => hnv ⟨rfl, hv⟩
      unfold register_plugin
      cases hcase : lookupAssoc reg n with
      | none =>
        simp [lookup2, lookupAssoc_updateAssoc_self, hcase, lookupAssoc,
          Ne.symm hv]
      | some vm =>
        simp [lookup2, lookupAssoc_updateAssoc_self, hcase,
          lookupAssoc_updateAssoc_ne vm version v cls hv]
    · unfold register_plugin
      cases hcase : lookupAssoc reg name <;>
        simp [lookup2, lookupAssoc_updateAssoc_ne reg name n _ hn]
  refine ⟨hself, hother, ?_⟩
  intro n v c0 h0
  by_cases hnv : n = name ∧ v = version
  · obtain ⟨rfl, rfl⟩ := hnv
    exact ⟨cls, hself⟩
  · exact ⟨c0, (hother n v hnv).trans h0⟩

/-- Witness for C7: the second `builtin` registration leaves `1.0.0`
untouched, and re-registering `2.0.0` replaces its factory. -/
theorem registry_register_behavior_witness :
    lookup2 regC "builtin" "2.0.0" = some (.other 1) ∧
    lookup2 regC "builtin" "1.0.0" = lookup2 regA "builtin" "1.0.0" ∧
    lookup2 regA "builtin" "1.0.0" = some .builtinV1 := by
  obtain ⟨h1, h2, _⟩ := registry_register_behavior regA "builtin" "2.0.0" (.other 1)
  exact ⟨h1, h2 "builtin" "1.0.0" (by decide), rfl⟩

/-- C8: for every profile the v1 configuration accepts, BuiltinV2 builds the
identical validated config (and then also accepts it), returns the same
`get_node_count()` and the same `get_container_count(i)` at every index,
differs only in presentation — `get_hostname(i)` is `"v2-"` prepended to
the v1 hostname — and its configuration emits an informational log notice. -/
theorem builtin_v2_refines_v1 (p : Profile) (c : BuiltinConfig)
    (h : BuiltinV1.pre_configure p = .ok c) :
    (∃ log, BuiltinV2.pre_configure p = .ok (c, log) ∧ log.level = "INFO") ∧
    BuiltinV2.get_node_count c = BuiltinV1.get_node_count c ∧
    (∀ i, BuiltinV2.get_container_count c i =
      BuiltinV1.get_container_count c i) ∧
    (∀ i, BuiltinV2.get_hostname c i = "v2-" ++ BuiltinV1.get_hostname c i) := by
  refine ⟨?_, rfl, fun i => rfl, fun i => ?_⟩
  · unfold BuiltinV2.pre_configure
    unfold BuiltinV1.pre_configure at h
    rw [h]
    exact ⟨_, rfl, rfl⟩
  · unfold BuiltinV2.get_hostname BuiltinV1.get_hostname
    rw [String.append_assoc, String.append_assoc, String.append_assoc]

/-- Witness for C8 at the profile `count=5`. -/
theorem builtin_v2_refines_v1_witness :
    (∃ log, BuiltinV2.pre_configure p5 = .ok (⟨5, 0, 0, "node"⟩, log) ∧
      log.level = "INFO") ∧
    BuiltinV2.get_hostname ⟨5, 0, 0, "node"⟩ 1 = "v2-node-1" := by
  obtain ⟨h1, _, _, h4⟩ := builtin_v2_refines_v1 p5 ⟨5, 0, 0, "node"⟩ rfl
  exact ⟨h1, (h4 1).trans (by decide)⟩

/-- C9: in the Extended Strategy's address assignment, a CIDR whose address
portion is the base address (all host bits zero) starts addressing at the
first usable host address — for `192.168.50.0/24` the first endpoint's
`topology_ip` is `192.168.50.1` and `ips[0]` is `"192.168.50.1/24"` — while
a CIDR carrying a specific host address starts at exactly that address —
for `192.168.50.10/24` addressing starts at `192.168.50.10`. -/
theorem extended_address_assignment :
    (∀ c : Cidr, c.addr % 2 ^ (32 - c.prefixLen) = 0 →
      startAddr c = c.addr + 1) ∧
    (∀ c : Cidr, c.addr % 2 ^ (32 - c.prefixLen) ≠ 0 → startAddr c = c.addr) ∧
    (firstEndpoint ⟨ipNum 192 168 50 0, 24⟩).topologyIp = "192.168.50.1" ∧
    (firstEndpoint ⟨ipNum 192 168 50 0, 24⟩).ips = ["192.168.50.1/24"] ∧
    (firstEndpoint ⟨ipNum 192 168 50 10, 24⟩).topologyIp = "192.168.50.10" ∧
    (firstEndpoint ⟨ipNum 192 168 50 10, 24⟩).ips = ["192.168.50.10/24"] := by
  refine ⟨?_, ?_, by decide, by decide, by decide, by decide⟩
  · intro c h
    unfold startAddr
    rw [if_pos h]
  · intro c h
    unfold startAddr
    rw [if_neg h]

/-- Witness for C9 at the two concrete networks. -/
theorem extended_address_assignment_witness :
    startAddr ⟨ipNum 192 168 50 0, 24⟩ = ipNum 192 168 50 0 + 1 ∧
    startAddr ⟨ipNum 192 168 50 10, 24⟩ = ipNum 192 168 50 10 := by
  obtain ⟨h1, h2, _⟩ := extended_address_assignment
  exact ⟨h1 ⟨ipNum 192 168 50 0, 24⟩ (by decide),
    h2 ⟨ipNum 192 168 50 10, 24⟩ (by decide)⟩

end PhenixScale
